import Mathlib

/-!
# The circular line buffer of `tail.c`

A shallow embedding of the circular buffer of `src/tail.c` (`cb_create`, `cb_put`,
`cb_get`, `cb_free`, `cb_last_n`) and of its argument parsing (`string_to_int`,
`parse_args`), together with theorems about them.

Modelling conventions.

* A C string (`char *`) is an `Option String`: `none` is the null pointer, `some s` is a
  pointer to the text `s`; `strlen` is the number of characters of `s`.
* The `int` fields `head`, `tail`, `size`, `count` are `Int`; the C operator `%` on `int`
  is the truncating remainder `Int.tmod`.  No arithmetic of the buffer can overflow in a
  state with `0 ≤ head < size`, `0 ≤ count ≤ size`.
* `buffer` (a `char **` obtained from `calloc`) is the list of its slots.
* Undefined behaviour of the C code (an index outside the array, `% 0`) is not a separate
  outcome: the model then computes what `slot_read`, `slot_write` and `Int.tmod` give.  The
  predicate `valid` describes the buffers on which none of it can occur.
* The heap is not modelled: `free` has no effect on the modelled state.  In particular
  `cb_get` hands a pointer out without clearing its slot, so the slot keeps its value.
  What is freed is followed by slot index: `cb_free` is the list of the indices of the
  slots it frees, `cb_last_n_freed` the list of those the drain loop prints and frees.
* The outcome of an allocation (`malloc`, `calloc`) is an explicit `Bool` argument; a
  `calloc` of a negative `int` count, which reaches it as an oversized `size_t`, fails
  whatever the argument says.
* Text written by `printf` in `cb_last_n` is returned as the list of printed lines.
-/

namespace Tail

/-- The macro `DEFAULT_LINE_COUNT`. -/
def DEFAULT_LINE_COUNT : Int := 10

/-- The macro `MAX_LINE_LENGTH`. -/
def MAX_LINE_LENGTH : Nat := 4095

/-- The library function `strlen` on a non-null C string. -/
def strlen (s : String) : Nat := s.length

/-- The struct `circular_buffer`. -/
structure circular_buffer where
  /-- the slots of the array `buffer`, `none` being a null pointer -/
  buffer : List (Option String)
  /-- index of the head/end of the buffer -/
  head : Int
  /-- index of the tail/start of the buffer -/
  tail : Int
  /-- maximum size of the buffer -/
  size : Int
  /-- number of lines in the buffer -/
  count : Int
deriving DecidableEq, Repr

/-- The read `buffer[i]` for an `int` index `i`; an index outside the array (undefined
behaviour in C) reads as a null pointer. -/
def slot_read (b : List (Option String)) (i : Int) : Option String :=
  match i with
  | Int.ofNat k => b.getD k none
  | Int.negSucc _ => none

/-- The write `buffer[i] = p` for an `int` index `i`; a write outside the array (undefined
behaviour in C) leaves the slots as they are. -/
def slot_write (b : List (Option String)) (i : Int) (p : Option String) :
    List (Option String) :=
  match i with
  | Int.ofNat k => b.set k p
  | Int.negSucc _ => b

/-- The function `cb_create`: `malloc_ok` and `calloc_ok` tell whether the allocator can
serve the two requests. `calloc` takes its element count as a `size_t`: a negative `n`
converts to a count whose size in bytes, times `sizeof(char*)`, exceeds the range of
`size_t`, a request `calloc` answers with a null pointer whatever the allocator has left.
A served `calloc` zeroes the `n` slots. -/
def cb_create (n : Int) (malloc_ok calloc_ok : Bool) : Option circular_buffer :=
  if malloc_ok = false then none
  else if calloc_ok = false ∨ n < 0 then none
  else some { buffer := List.replicate n.toNat none, head := 0, tail := 0, count := 0, size := n }

/-- The function `cb_put`: the returned pair is the return value (`1` on success, `-1` on
failure) and the buffer behind the pointer `cb` after the call.  The return type is `char`;
where `char` is unsigned the `-1` reads as `255`, which is as well neither `0` nor `1`.
The `free` of the line that was in the slot has no effect on the modelled state. -/
def cb_put (cb : Option circular_buffer) (line : Option String) (malloc_ok : Bool) :
    Int × Option circular_buffer :=
  match cb, line with
  | none, _ => (-1, cb)
  | some _, none => (-1, cb)
  | some b, some l =>
    if strlen l > MAX_LINE_LENGTH then (-1, cb)
    else if malloc_ok = false then (-1, cb)
    else
      let new_line := l
      let b1 := { b with buffer := slot_write b.buffer b.head (some new_line) }
      let b2 := { b1 with head := (b1.head + 1).tmod b1.size }
      let b3 := if b2.count < b2.size then { b2 with count := b2.count + 1 } else b2
      (1, some b3)

/-- The function `cb_get`: the returned pair is the returned pointer and the buffer after
the call.  The slot that is handed out is not cleared. -/
def cb_get (cb : circular_buffer) : Option String × circular_buffer :=
  if cb.count = 0 then (none, cb)
  else
    let r : Option String × circular_buffer :=
      if cb.head ≠ cb.tail then
        (slot_read cb.buffer cb.head, { cb with head := (cb.head + 1).tmod cb.size })
      else
        (slot_read cb.buffer cb.tail, cb)
    (r.1, { r.2 with tail := (r.2.tail + 1).tmod r.2.size, count := r.2.count - 1 })

/-- The `for` loop of `cb_last_n` with `k` iterations left: the printed lines and the buffer
after the loop. -/
def cb_last_n_loop : Nat → circular_buffer → List String × circular_buffer
  | 0, cb => ([], cb)
  | k + 1, cb =>
    match cb_get cb with
    | (none, cb1) => ([], cb1)
    | (some line, cb1) =>
      let r := cb_last_n_loop k cb1
      (line :: r.1, r.2)

/-- The function `cb_last_n`: the lines it prints, in the order printed, and the buffer
behind the pointer `cb` after the call. -/
def cb_last_n (cb : Option circular_buffer) (n : Int) : List String × Option circular_buffer :=
  match cb with
  | none => ([], none)
  | some b =>
    if n ≤ 0 ∨ b.count = 0 then ([], some b)
    else
      let r := cb_last_n_loop n.toNat b
      (r.1, some r.2)

/-- A sequence of pushes: `cb_put` called on each line in turn, every copy being allocated
successfully, as the read loop of `main` does. -/
def put_lines (cb : Option circular_buffer) (lines : List String) : Option circular_buffer :=
  lines.foldl (fun b l => (cb_put b (some l) true).2) cb

/-- The lines a drain `cb_last_n(cb, n)` yields. -/
def drain (cb : Option circular_buffer) (n : Int) : List String := (cb_last_n cb n).1

/-- A buffer on which the C code has defined behaviour: at least one slot, as many slots
as `size` says, both indices inside the array and `count` between `0` and `size`. -/
def valid (b : circular_buffer) : Prop :=
  1 ≤ b.size ∧ (b.buffer.length : Int) = b.size ∧ 0 ≤ b.head ∧ b.head < b.size ∧
    0 ≤ b.tail ∧ b.tail < b.size ∧ 0 ≤ b.count ∧ b.count ≤ b.size

instance (b : circular_buffer) : Decidable (valid b) := by
  unfold valid; infer_instance

/-- A line of `n` characters `a`. -/
def line_of_length (n : Nat) : String := String.mk (List.replicate n 'a')

/-- The lines a full drain is specified to yield after the pushes `lines` onto a buffer of
capacity `c`: the last `c` lines pushed, oldest first (all of them when there are at most
`c`). -/
def last_lines (c : Nat) (lines : List String) : List String :=
  lines.drop (lines.length - c)

/-- A call on the buffer: a push of a line or a pop. -/
inductive Op where
  | put (line : String)
  | get
deriving DecidableEq, Repr

/-- The pointers returned by the `cb_get` calls of an interleaving of `cb_put` and `cb_get`
calls, every copy made by `cb_put` being allocated successfully. -/
def run_cb : circular_buffer → List Op → List (Option String)
  | _, [] => []
  | b, Op.put l :: ops =>
    match (cb_put (some b) (some l) true).2 with
    | some b1 => run_cb b1 ops
    | none => []
  | b, Op.get :: ops => (cb_get b).1 :: run_cb (cb_get b).2 ops

/-- The reference bounded FIFO queue of capacity `c`, push: append the line, dropping the
oldest line first when the queue is full. -/
def ref_push (c : Nat) (q : List String) (l : String) : List String :=
  if q.length < c then q ++ [l] else q.tail ++ [l]

/-- The reference bounded FIFO queue, pop: remove the front, nothing when empty. -/
def ref_pop (q : List String) : Option String × List String :=
  (q.head?, q.tail)

/-- The results of the pops of an interleaving run on the reference queue. -/
def run_ref (c : Nat) : List String → List Op → List (Option String)
  | _, [] => []
  | q, Op.put l :: ops => run_ref c (ref_push c q l) ops
  | q, Op.get :: ops => (ref_pop q).1 :: run_ref c (ref_pop q).2 ops

/-- The function `cb_free`: the indices of the slots whose string it frees, in the order
of its loop (`i` from `0` while `i < count`, the slot freed when it is not null). -/
def cb_free (cb : Option circular_buffer) : List Nat :=
  match cb with
  | none => []
  | some b => (List.range b.count.toNat).filter (fun i => slot_read b.buffer i ≠ none)

/-- The index of the slot whose pointer `cb_get` returns on a buffer with `count != 0`:
`head` when `head != tail`, `tail` otherwise. -/
def cb_get_index (cb : circular_buffer) : Int :=
  if cb.head ≠ cb.tail then cb.head else cb.tail

/-- The `for` loop of `cb_last_n` with `k` iterations left: the indices of the slots whose
line the loop prints and frees. -/
def cb_last_n_freed : Nat → circular_buffer → List Int
  | 0, _ => []
  | k + 1, cb =>
    match cb_get cb with
    | (none, _) => []
    | (some _, cb1) => cb_get_index cb :: cb_last_n_freed k cb1

/-- The slots holding a line the buffer still owns, given the slots `freed` that were
handed out by `cb_get` and freed by the consumer since they were last written: the slots
that are not null and not among `freed`. -/
def owned_slots (b : circular_buffer) (freed : List Int) : List Nat :=
  (List.range b.buffer.length).filter
    (fun i => slot_read b.buffer i ≠ none ∧ (i : Int) ∉ freed)

/-- A call on a buffer behind a non-null pointer: `cb_put` with any line pointer and any
outcome of its allocation, `cb_get`, or `cb_last_n` with any `n`. -/
inductive Call where
  | put (line : Option String) (malloc_ok : Bool)
  | get
  | last_n (n : Int)
deriving DecidableEq, Repr

/-- The buffer after one call. -/
def call_step (b : circular_buffer) : Call → circular_buffer
  | Call.put line malloc_ok => ((cb_put (some b) line malloc_ok).2).getD b
  | Call.get => (cb_get b).2
  | Call.last_n n => ((cb_last_n (some b) n).2).getD b

/-- The buffer after a sequence of calls. -/
def run_calls (b : circular_buffer) (calls : List Call) : circular_buffer :=
  calls.foldl call_step b

/-- The value of `x` as an `int`: taken modulo `2 ^ 32` into the range of two's
complement. -/
def wrap_int (x : Int) : Int := (x + 2 ^ 31) % 2 ^ 32 - 2 ^ 31

/-- The loop of `string_to_int` on the characters still to read, `n` being the value
accumulated so far. -/
def string_to_int_loop (n : Int) : List Char → Int
  | [] => n
  | ch :: rest =>
    if ch.toNat < '0'.toNat ∨ ch.toNat > '9'.toNat then -1
    else string_to_int_loop (wrap_int (wrap_int (n * 10) + ((ch.toNat : Int) - '0'.toNat))) rest

/-- The function `string_to_int`, with `int` arithmetic modulo `2 ^ 32`. A character is
compared through its code: a code above that of `9`, which a signed `char` may hold as a
negative value below that of `0`, is rejected on either reading. -/
def string_to_int (str : String) : Int := string_to_int_loop 0 str.data

/-- The stream behind a `FILE *`. -/
inductive Stream where
  | stdin
  | file (name : String)
deriving DecidableEq, Repr

/-- The struct `arguments`; a null `input` is `none`. -/
structure arguments where
  /-- number of lines to output -/
  n : Int
  /-- pointer to the input file -/
  input : Option Stream
deriving DecidableEq, Repr

/-- The function `parse_args` on the argument vector `argv` (`argc` is its length):
the return value and the struct behind `args` after the call. `fopen_ok` tells whether
`fopen` succeeds. -/
def parse_args (argv : List String) (fopen_ok : Bool) : Int × arguments :=
  let args0 : arguments := { n := DEFAULT_LINE_COUNT, input := none }
  match argv with
  | [_] => (1, { args0 with input := some Stream.stdin })
  | [_, f] =>
    if fopen_ok = false then (-1, args0) else (1, { args0 with input := some (Stream.file f) })
  | _ :: a1 :: a2 :: rest =>
    if rest.length ≤ 1 then
      if a1 = "-n" then
        let input : Option Stream :=
          match rest with
          | [] => some Stream.stdin
          | f :: _ => if fopen_ok = false then none else some (Stream.file f)
        let n := string_to_int a2
        if n = -1 then (-1, { n := n, input := input }) else (1, { n := n, input := input })
      else (-1, args0)
    else (-1, args0)
  | [] => (-1, args0)

/-- The decimal value of a string of digits: its digits, least significant first, read in
base ten. -/
def decimal_value (str : String) : Nat :=
  Nat.ofDigits 10 (str.data.reverse.map (fun ch => ch.toNat - '0'.toNat))

/-- The string consists only of the characters `0` to `9`. -/
def all_digits (str : String) : Prop :=
  ∀ ch ∈ str.data, '0'.toNat ≤ ch.toNat ∧ ch.toNat ≤ '9'.toNat

instance (str : String) : Decidable (all_digits str) := by
  unfold all_digits; infer_instance

/-! ## Lemmas -/

theorem strlen_line_of_length (n : Nat) : strlen (line_of_length n) = n := by
  simp only [strlen, line_of_length, String.length, List.length_replicate]

theorem cb_put_one_slot (x : Option String) (k : Int) (hk : k = 0 ∨ k = 1) (l : String)
    (hl : strlen l ≤ MAX_LINE_LENGTH) :
    (cb_put (some ⟨[x], 0, 0, 1, k⟩) (some l) true).2 = some ⟨[some l], 0, 0, 1, 1⟩ := by
  have h : ¬ (strlen l > MAX_LINE_LENGTH) := by omega
  rcases hk with rfl | rfl <;> simp [cb_put, h, slot_write]

theorem put_lines_one_slot (lines : List String) (hne : lines ≠ [])
    (hlen : ∀ l ∈ lines, strlen l ≤ MAX_LINE_LENGTH) (x : Option String) (k : Int)
    (hk : k = 0 ∨ k = 1) :
    put_lines (some ⟨[x], 0, 0, 1, k⟩) lines = some ⟨[some (lines.getLast hne)], 0, 0, 1, 1⟩ := by
  induction lines generalizing x k with
  | nil => exact absurd rfl hne
  | cons l rest ih =>
    have hl : strlen l ≤ MAX_LINE_LENGTH := hlen l (List.mem_cons_self _ _)
    have hstep : put_lines (some ⟨[x], 0, 0, 1, k⟩) (l :: rest)
        = put_lines (some ⟨[some l], 0, 0, 1, 1⟩) rest := by
      simp only [put_lines, List.foldl_cons]
      rw [cb_put_one_slot x k hk l hl]
    rw [hstep]
    cases rest with
    | nil => simp [put_lines]
    | cons l2 rest2 =>
      rw [ih (List.cons_ne_nil _ _) (fun a ha => hlen a (List.mem_cons_of_mem _ ha)) (some l) 1
        (Or.inr rfl)]
      simp [List.getLast_cons]

theorem drain_one_slot (s : String) : drain (some ⟨[some s], 0, 0, 1, 1⟩) 1 = [s] := by
  rfl

theorem tmod_succ_eq_emod {x s : Int} (h0 : 0 ≤ x) (h1 : x < s) :
    (x + 1).tmod s = (x + 1) % s :=
  Int.tmod_eq_emod (by omega) (by omega)

theorem emod_succ_cases {x s : Int} (h0 : 0 ≤ x) (h1 : x < s) :
    ((x + 1) % s = x + 1 ∧ x + 1 < s) ∨ ((x + 1) % s = 0 ∧ x + 1 = s) := by
  by_cases h : x + 1 < s
  · exact Or.inl ⟨Int.emod_eq_of_lt (by omega) h, h⟩
  · have hs : x + 1 = s := by omega
    exact Or.inr ⟨by rw [hs]; exact Int.emod_self, hs⟩

theorem slot_read_natCast (buf : List (Option String)) (k : Nat) :
    slot_read buf (k : Int) = buf.getD k none := rfl

theorem slot_write_natCast (buf : List (Option String)) (k : Nat) (p : Option String) :
    slot_write buf (k : Int) p = buf.set k p := rfl

theorem slot_write_length (buf : List (Option String)) (i : Int) (p : Option String) :
    (slot_write buf i p).length = buf.length := by
  cases i <;> simp [slot_write]

theorem slot_read_write_same (buf : List (Option String)) (i : Int) (p : Option String)
    (h0 : 0 ≤ i) (h1 : i < buf.length) : slot_read (slot_write buf i p) i = p := by
  obtain ⟨k, rfl⟩ := Int.eq_ofNat_of_zero_le h0
  have hk : k < buf.length := by omega
  simp [slot_read_natCast, slot_write_natCast, List.getD_eq_getElem?_getD, hk]

theorem slot_read_write_other (buf : List (Option String)) (i j : Int) (p : Option String)
    (h : j ≠ i) : slot_read (slot_write buf i p) j = slot_read buf j := by
  cases i with
  | negSucc _ => rfl
  | ofNat k =>
    cases j with
    | negSucc _ => rfl
    | ofNat m =>
      have hne : k ≠ m := by
        intro e; apply h; rw [e]
      simp [slot_read, slot_write, List.getD_eq_getElem?_getD, List.getElem?_set_ne hne]

/-- The state a successful `cb_put` leaves. -/
theorem cb_put_success (b : circular_buffer) (l : String) (hl : strlen l ≤ MAX_LINE_LENGTH) :
    cb_put (some b) (some l) true
      = (1, some { buffer := slot_write b.buffer b.head (some l),
                   head := (b.head + 1).tmod b.size, tail := b.tail, size := b.size,
                   count := if b.count < b.size then b.count + 1 else b.count }) := by
  have h : ¬ (strlen l > MAX_LINE_LENGTH) := by omega
  simp only [cb_put, h, if_false]
  by_cases hc : b.count < b.size <;> simp [hc]

/-- A failing `cb_put` leaves the buffer as it is, and a `cb_put` on a non-null buffer
leaves a non-null buffer. -/
theorem cb_put_state_cases (b : circular_buffer) (line : Option String) (malloc_ok : Bool) :
    (cb_put (some b) line malloc_ok).2 = some b ∨
    ∃ l, line = some l ∧ strlen l ≤ MAX_LINE_LENGTH ∧
      (cb_put (some b) line malloc_ok).2 = (cb_put (some b) (some l) true).2 := by
  cases line with
  | none => left; rfl
  | some l =>
    by_cases h : strlen l > MAX_LINE_LENGTH
    · left; simp [cb_put, h]
    · cases malloc_ok with
      | false => left; simp [cb_put, h]
      | true => right; exact ⟨l, rfl, by omega, rfl⟩

theorem valid_cb_put_success (b : circular_buffer) (hb : valid b) (l : String) :
    valid { buffer := slot_write b.buffer b.head (some l),
            head := (b.head + 1).tmod b.size, tail := b.tail, size := b.size,
            count := if b.count < b.size then b.count + 1 else b.count } := by
  obtain ⟨h1, h2, h3, h4, h5, h6, h7, h8⟩ := hb
  have hm := tmod_succ_eq_emod h3 h4
  have hcases := emod_succ_cases h3 h4
  refine ⟨h1, ?_, ?_, ?_, h5, h6, ?_, ?_⟩
  · simp only [slot_write_length]; exact h2
  · simp only [hm]; omega
  · simp only [hm]; omega
  · show 0 ≤ (if b.count < b.size then b.count + 1 else b.count)
    split_ifs <;> omega
  · show (if b.count < b.size then b.count + 1 else b.count) ≤ b.size
    split_ifs <;> omega

/-- The state `cb_get` leaves on a buffer that is not empty. -/
theorem cb_get_nonempty (b : circular_buffer) (hc : b.count ≠ 0) :
    cb_get b = (slot_read b.buffer (cb_get_index b),
      { buffer := b.buffer,
        head := if b.head ≠ b.tail then (b.head + 1).tmod b.size else b.head,
        tail := (b.tail + 1).tmod b.size, size := b.size, count := b.count - 1 }) := by
  simp only [cb_get, hc, if_false, cb_get_index]
  by_cases h : b.head = b.tail <;> simp [h]

theorem cb_get_empty (b : circular_buffer) (hc : b.count = 0) : cb_get b = (none, b) := by
  simp [cb_get, hc]

theorem valid_cb_get (b : circular_buffer) (hb : valid b) :
    valid (cb_get b).2 ∧ (cb_get b).2.size = b.size := by
  by_cases hc : b.count = 0
  · rw [cb_get_empty b hc]; exact ⟨hb, rfl⟩
  · rw [cb_get_nonempty b hc]
    obtain ⟨h1, h2, h3, h4, h5, h6, h7, h8⟩ := hb
    have hm := tmod_succ_eq_emod h3 h4
    have hcases := emod_succ_cases h3 h4
    have hmt := tmod_succ_eq_emod h5 h6
    have hcasest := emod_succ_cases h5 h6
    refine ⟨⟨h1, h2, ?_, ?_, ?_, ?_, ?_, ?_⟩, rfl⟩
    · show 0 ≤ (if b.head ≠ b.tail then (b.head + 1).tmod b.size else b.head)
      split_ifs <;> omega
    · show (if b.head ≠ b.tail then (b.head + 1).tmod b.size else b.head) < b.size
      split_ifs <;> omega
    · show 0 ≤ (b.tail + 1).tmod b.size
      omega
    · show (b.tail + 1).tmod b.size < b.size
      omega
    · show 0 ≤ b.count - 1
      omega
    · show b.count - 1 ≤ b.size
      omega

theorem valid_cb_last_n_loop (k : Nat) (b : circular_buffer) (hb : valid b) :
    valid (cb_last_n_loop k b).2 ∧ (cb_last_n_loop k b).2.size = b.size := by
  induction k generalizing b with
  | zero => exact ⟨hb, rfl⟩
  | succ k ih =>
    have hg := valid_cb_get b hb
    rw [cb_last_n_loop]
    rcases hget : cb_get b with ⟨o, b1⟩
    rw [hget] at hg
    cases o with
    | none => exact hg
    | some line =>
      have h := ih b1 hg.1
      exact ⟨h.1, h.2.trans hg.2⟩

theorem valid_call_step (b : circular_buffer) (hb : valid b) (call : Call) :
    valid (call_step b call) ∧ (call_step b call).size = b.size := by
  cases call with
  | put line malloc_ok =>
    rcases cb_put_state_cases b line malloc_ok with h | ⟨l, _, hl, h⟩
    · simp only [call_step, h, Option.getD_some]; exact ⟨hb, trivial⟩
    · simp only [call_step, h, cb_put_success b l hl, Option.getD_some]
      exact ⟨valid_cb_put_success b hb l, trivial⟩
  | get => exact valid_cb_get b hb
  | last_n n =>
    by_cases h : n ≤ 0 ∨ b.count = 0
    · simp only [call_step, cb_last_n, h, if_true, Option.getD_some]; exact ⟨hb, trivial⟩
    · simp only [call_step, cb_last_n, h, if_false, Option.getD_some]
      exact valid_cb_last_n_loop _ b hb

theorem valid_run_calls (calls : List Call) (b : circular_buffer) (hb : valid b) :
    valid (run_calls b calls) ∧ (run_calls b calls).size = b.size := by
  induction calls generalizing b with
  | nil => exact ⟨hb, rfl⟩
  | cons call rest ih =>
    have h1 := valid_call_step b hb call
    have h2 := ih (call_step b call) h1.1
    exact ⟨h2.1, h2.2.trans h1.2⟩

theorem cb_create_ok (c : Nat) :
    cb_create (c : Int) true true = some ⟨List.replicate c none, 0, 0, c, 0⟩ := by
  have h : ¬ ((c : Int) < 0) := by omega
  simp [cb_create, h]

theorem valid_cb_create (c : Nat) (hc : 1 ≤ c) :
    valid ⟨List.replicate c none, 0, 0, c, 0⟩ := by
  refine ⟨?_, ?_, ?_, ?_, ?_, ?_, ?_, ?_⟩ <;> simp <;> omega

theorem mod_ne_of_lt_of_lt_add {j p c : Nat} (h1 : j < p) (h2 : p < j + c) :
    j % c ≠ p % c := by
  intro h
  have hd : (p - j) % c = 0 := Nat.sub_mod_eq_zero_of_mod_eq h.symm
  have hdvd : c ∣ p - j := Nat.dvd_of_mod_eq_zero hd
  have hle : c ≤ p - j := Nat.le_of_dvd (by omega) hdvd
  omega

/-- The buffer after the successful pushes `lines` onto a fresh buffer of capacity `c`:
`head` is the number of pushes modulo `c`, `tail` is 0, `count` is the number of pushes
capped at `c`, each of the last `c` lines is in the slot of its index modulo `c`, and the
slots from the number of pushes on are still null. -/
theorem put_lines_state (c : Nat) (hc : 1 ≤ c) (lines : List String)
    (hlen : ∀ l ∈ lines, strlen l ≤ MAX_LINE_LENGTH) :
    ∃ b, put_lines (cb_create (c : Int) true true) lines = some b ∧ valid b ∧
      b.size = c ∧ b.buffer.length = c ∧ b.head = ((lines.length % c : Nat) : Int) ∧
      b.tail = 0 ∧ b.count = ((min lines.length c : Nat) : Int) ∧
      (∀ j x, lines[j]? = some x → lines.length ≤ j + c →
        b.buffer.getD (j % c) none = some x) ∧
      (∀ i, lines.length ≤ i → b.buffer.getD i none = none) := by
  induction lines using List.reverseRecOn with
  | nil =>
    refine ⟨_, by rw [cb_create_ok]; rfl, valid_cb_create c hc, rfl, by simp, by simp, rfl,
      by simp, ?_, ?_⟩
    · intro j x h; simp at h
    · intro i _
      simp only [List.getD_eq_getElem?_getD, List.getElem?_replicate]
      split_ifs <;> rfl
  | append_singleton lines l ih =>
    obtain ⟨b, hb, hv, hsize, hblen, hhead, htail, hcount, hslots, hnull⟩ :=
      ih (fun a ha => hlen a (List.mem_append_left _ ha))
    have hl : strlen l ≤ MAX_LINE_LENGTH := hlen l (by simp)
    have hstep : put_lines (cb_create (c : Int) true true) (lines ++ [l])
        = (cb_put (some b) (some l) true).2 := by
      simp only [put_lines, List.foldl_append, List.foldl_cons, List.foldl_nil] at hb ⊢
      rw [hb]
    rw [hstep, cb_put_success b l hl]
    have hv2 := valid_cb_put_success b hv l
    obtain ⟨h1, h2, h3, h4, h5, h6, h7, h8⟩ := hv
    have hmodlt : lines.length % c < c := Nat.mod_lt _ (by omega)
    refine ⟨_, rfl, hv2, hsize, ?_, ?_, htail, ?_, ?_, ?_⟩
    · simp only [slot_write_length]; exact hblen
    · show (b.head + 1).tmod b.size = _
      rw [tmod_succ_eq_emod h3 h4, hhead, hsize]
      have : ((lines ++ [l]).length % c) = (lines.length % c + 1) % c := by
        simp [Nat.mod_add_mod]
      rw [this]
      push_cast
      rfl
    · show (if b.count < b.size then b.count + 1 else b.count) = _
      rw [hcount, hsize]
      simp only [List.length_append, List.length_singleton]
      split_ifs with hlt <;> omega
    · intro j x hj hjc
      show (slot_write b.buffer b.head (some l)).getD (j % c) none = some x
      rw [hhead, slot_write_natCast]
      simp only [List.length_append, List.length_singleton] at hjc
      by_cases hjp : j < lines.length
      · rw [List.getElem?_append_left hjp] at hj
        have hne : lines.length % c ≠ j % c :=
          fun e => mod_ne_of_lt_of_lt_add hjp (by omega) e.symm
        rw [List.getD_eq_getElem?_getD, List.getElem?_set_ne hne,
          ← List.getD_eq_getElem?_getD]
        exact hslots j x hj (by omega)
      · have hjlen : j < (lines ++ [l]).length := by
          by_contra hcon
          rw [List.getElem?_eq_none (by omega)] at hj
          exact absurd hj (by simp)
        simp only [List.length_append, List.length_singleton] at hjlen
        have hje : j = lines.length := by omega
        subst hje
        rw [List.getElem?_append_right (le_refl _)] at hj
        simp at hj
        subst hj
        rw [List.getD_eq_getElem?_getD, List.getElem?_set_eq_of_lt _ (by omega)]
        rfl
    · intro i hi
      show (slot_write b.buffer b.head (some l)).getD i none = none
      rw [hhead, slot_write_natCast]
      simp only [List.length_append, List.length_singleton] at hi
      have hne : lines.length % c ≠ i := by
        have := Nat.mod_le lines.length c
        omega
      rw [List.getD_eq_getElem?_getD, List.getElem?_set_ne hne, ← List.getD_eq_getElem?_getD]
      exact hnull i (by omega)

theorem emod_succ_add (h s : Int) (j : Nat) :
    ((h + 1) % s + (j : Int)) % s = (h + ((j + 1 : Nat) : Int)) % s := by
  rw [Int.emod_add_emod]
  congr 1
  push_cast
  ring

theorem emod_succ_ne {h t s : Int} (h0 : 0 ≤ h) (h1 : h < s) (t0 : 0 ≤ t) (t1 : t < s)
    (hne : h ≠ t) : (h + 1) % s ≠ (t + 1) % s := by
  have a := emod_succ_cases h0 h1
  have b := emod_succ_cases t0 t1
  omega

/-- The loop of `cb_last_n` on a valid buffer with `head != tail`: every `cb_get` takes
the branch of `head`, so the loop prints the slots from `head` on, as many as iterations
and `count` allow, provided these slots hold a line; `head` and `tail` still differ
afterwards. -/
theorem cb_last_n_loop_head_branch (out : List String) (k : Nat) (b : circular_buffer)
    (hb : valid b) (hne : b.head ≠ b.tail) (hk : out.length ≤ k)
    (hcount : (out.length : Int) ≤ b.count)
    (hstop : out.length = k ∨ (out.length : Int) = b.count)
    (hslots : ∀ (j : Nat) (x : String), out[j]? = some x →
      slot_read b.buffer ((b.head + (j : Int)) % b.size) = some x) :
    (cb_last_n_loop k b).1 = out ∧
      (cb_last_n_loop k b).2.head ≠ (cb_last_n_loop k b).2.tail := by
  induction out generalizing k b with
  | nil =>
    cases k with
    | zero => exact ⟨rfl, hne⟩
    | succ k =>
      have h0 : b.count = 0 := by
        rcases hstop with h | h
        · simp at h
        · simpa using h.symm
      rw [cb_last_n_loop, cb_get_empty b h0]
      exact ⟨rfl, hne⟩
  | cons x rest ih =>
    cases k with
    | zero => simp at hk
    | succ k =>
      simp only [List.length_cons] at hk hcount hstop
      have hc : b.count ≠ 0 := by omega
      obtain ⟨h1, h2, h3, h4, h5, h6, h7, h8⟩ := hb
      have hx : slot_read b.buffer b.head = some x := by
        have := hslots 0 x (by simp)
        simpa [Int.emod_eq_of_lt h3 h4] using this
      have hv := valid_cb_get b ⟨h1, h2, h3, h4, h5, h6, h7, h8⟩
      rw [cb_get_nonempty b hc] at hv
      rw [cb_last_n_loop, cb_get_nonempty b hc]
      simp only [cb_get_index, hne, if_true, ne_eq, not_false_eq_true, hx] at hv ⊢
      have hih := ih k _ hv.1
        (by
          show (b.head + 1).tmod b.size ≠ (b.tail + 1).tmod b.size
          rw [tmod_succ_eq_emod h3 h4, tmod_succ_eq_emod h5 h6]
          exact emod_succ_ne h3 h4 h5 h6 hne)
        (by omega)
        (by show (rest.length : Int) ≤ b.count - 1; omega)
        (by
          show rest.length = k ∨ (rest.length : Int) = b.count - 1
          omega)
        (by
          intro j y hj
          show slot_read b.buffer (((b.head + 1).tmod b.size + (j : Int)) % b.size) = some y
          rw [tmod_succ_eq_emod h3 h4, emod_succ_add]
          exact hslots (j + 1) y (by simpa using hj))
      exact ⟨by rw [hih.1], hih.2⟩

theorem wrap_int_of_range {x : Int} (h0 : -2 ^ 31 ≤ x) (h1 : x < 2 ^ 31) : wrap_int x = x := by
  unfold wrap_int
  omega

theorem string_to_int_loop_not_digit (l : List Char) (n : Int)
    (h : ∃ ch ∈ l, ¬ ('0'.toNat ≤ ch.toNat ∧ ch.toNat ≤ '9'.toNat)) :
    string_to_int_loop n l = -1 := by
  induction l generalizing n with
  | nil => simp at h
  | cons ch rest ih =>
    rw [string_to_int_loop]
    by_cases hch : ch.toNat < '0'.toNat ∨ ch.toNat > '9'.toNat
    · rw [if_pos hch]
    · rw [if_neg hch]
      apply ih
      obtain ⟨x, hx, hbad⟩ := h
      rcases List.mem_cons.mp hx with rfl | hx
      · exact absurd (by omega) hbad
      · exact ⟨x, hx, hbad⟩

theorem string_to_int_loop_digits (l : List Char) (m : Nat)
    (hd : ∀ ch ∈ l, '0'.toNat ≤ ch.toNat ∧ ch.toNat ≤ '9'.toNat)
    (hv : m * 10 ^ l.length
      + Nat.ofDigits 10 (l.reverse.map (fun ch => ch.toNat - '0'.toNat)) < 2 ^ 31) :
    string_to_int_loop (m : Int) l
      = ((m * 10 ^ l.length
          + Nat.ofDigits 10 (l.reverse.map (fun ch => ch.toNat - '0'.toNat)) : Nat) : Int) := by
  induction l generalizing m with
  | nil => simp [string_to_int_loop]
  | cons ch rest ih =>
    have hch := hd ch (List.mem_cons_self _ _)
    have hval : m * 10 ^ (ch :: rest).length
        + Nat.ofDigits 10 ((ch :: rest).reverse.map (fun ch => ch.toNat - '0'.toNat))
        = (m * 10 + (ch.toNat - '0'.toNat)) * 10 ^ rest.length
          + Nat.ofDigits 10 (rest.reverse.map (fun ch => ch.toNat - '0'.toNat)) := by
      simp only [List.reverse_cons, List.map_append, List.map_cons, List.map_nil,
        Nat.ofDigits_append, Nat.ofDigits_singleton, List.length_cons, List.length_map,
        List.length_reverse]
      ring
    rw [hval] at hv ⊢
    have hpos : 0 < 10 ^ rest.length := Nat.pow_pos (by decide)
    have hsmall : m * 10 + (ch.toNat - '0'.toNat) < 2 ^ 31 := by
      have := Nat.le_mul_of_pos_right (m * 10 + (ch.toNat - '0'.toNat)) hpos
      omega
    have hnot : ¬ (ch.toNat < '0'.toNat ∨ ch.toNat > '9'.toNat) := by omega
    rw [string_to_int_loop, if_neg hnot]
    have hz : '0'.toNat = 48 := rfl
    have hn : '9'.toNat = 57 := rfl
    rw [hz, hn] at hch
    rw [hz] at hsmall
    have hstep : wrap_int (wrap_int ((m : Int) * 10) + ((ch.toNat : Int) - ('0'.toNat : Nat)))
        = ((m * 10 + (ch.toNat - '0'.toNat) : Nat) : Int) := by
      rw [hz]
      have e1 : wrap_int ((m : Int) * 10) = (m : Int) * 10 :=
        wrap_int_of_range (by omega) (by omega)
      rw [e1, wrap_int_of_range (by omega) (by omega)]
      omega
    rw [hstep]
    exact ih _ (fun x hx => hd x (List.mem_cons_of_mem _ hx)) hv

/-! ## The claims -/

/-- C1: a full drain after more pushes than the capacity is specified to yield the last
`capacity` lines. The code does so for capacity 3 and the five pushes a..e, but after the
six pushes a..f (a multiple of the capacity) `cb_last_n(cb, 3)` hands out the slots of
d, d, e: the slot of d twice and the slot of f never. -/
theorem full_drain_after_wrap_to_slot_zero :
    drain (put_lines (cb_create 3 true true) ["a", "b", "c", "d", "e"]) 3 = ["c", "d", "e"] ∧
    drain (put_lines (cb_create 3 true true) ["a", "b", "c", "d", "e", "f"]) 3
      = ["d", "d", "e"] ∧
    last_lines 3 ["a", "b", "c", "d", "e", "f"] = ["d", "e", "f"] := by
  decide

/-- C2: a full drain after at most `capacity` pushes is specified to yield the pushed
lines. With capacity 10 and the pushes x, y, `cb_last_n(cb, 10)` prints nothing: the first
`cb_get` reads the never written slot 2 and returns a null pointer. -/
theorem full_drain_of_partly_filled_buffer :
    drain (put_lines (cb_create 10 true true) ["x", "y"]) 10 = [] ∧
    (put_lines (cb_create 10 true true) ["x", "y"]).map (fun b => (cb_get b).1)
      = some none ∧
    last_lines 10 ["x", "y"] = ["x", "y"] := by
  decide

/-- C3: every `cb_get` is specified to return what the reference bounded FIFO queue
returns. With capacity 2, after one push of a the code returns a null pointer where the
reference queue returns a. -/
theorem cb_get_against_reference_queue :
    (cb_create 2 true true).map (fun b => run_cb b [Op.put "a", Op.get]) = some [none] ∧
    run_ref 2 [] [Op.put "a", Op.get] = [some "a"] := by
  decide

/-- C4: `cb_last_n(cb, n)` is specified to yield `min(n, count)` lines. With capacity 2 and
one push the count is 1, and `cb_last_n(cb, 1)` prints no line. -/
theorem cb_last_n_length_of_partly_filled_buffer :
    (put_lines (cb_create 2 true true) ["a"]).map (fun b => b.count) = some 1 ∧
    (drain (put_lines (cb_create 2 true true) ["a"]) 1).length = 0 ∧
    min (1 : Int) 1 = 1 := by
  decide

/-- C5: a partial drain is specified to yield the oldest lines and to leave the others
retrievable in order. With capacity 3 and the pushes a, b, c, `cb_last_n(cb, 1)` prints a,
and the following `cb_last_n(cb, 3)` hands out the slots of a, b: the slot of a again and
the slot of c never. -/
theorem partial_drain_then_full_drain :
    (put_lines (cb_create 3 true true) ["a", "b", "c"]).map (fun b => b.count) = some 3 ∧
    drain (put_lines (cb_create 3 true true) ["a", "b", "c"]) 1 = ["a"] ∧
    drain (cb_last_n (put_lines (cb_create 3 true true) ["a", "b", "c"]) 1).2 3
      = ["a", "b"] := by
  decide

/-- C6: a drain that follows a full drain is specified to yield nothing. With capacity 3
and the pushes a, b, the first `cb_last_n(cb, 3)` prints nothing and leaves the count at 1,
and the second `cb_last_n(cb, 1)` prints a. A buffer that was never pushed to drains to
nothing. -/
theorem second_drain_after_full_drain :
    drain (put_lines (cb_create 3 true true) ["a", "b"]) 3 = [] ∧
    ((cb_last_n (put_lines (cb_create 3 true true) ["a", "b"]) 3).2).map (fun b => b.count)
      = some 1 ∧
    drain (cb_last_n (put_lines (cb_create 3 true true) ["a", "b"]) 3).2 1 = ["a"] ∧
    drain (put_lines (cb_create 5 true true) []) 5 = [] := by
  decide

/-- C7: with capacity 1, after any non-empty sequence of successful pushes onto a fresh
buffer, `cb_last_n(cb, 1)` prints exactly one line, the last line pushed. -/
theorem cb_last_n_capacity_one (lines : List String) (hne : lines ≠ [])
    (hlen : ∀ l ∈ lines, strlen l ≤ MAX_LINE_LENGTH) :
    drain (put_lines (cb_create 1 true true) lines) 1 = [lines.getLast hne] := by
  have hc : cb_create 1 true true = some ⟨[none], 0, 0, 1, 0⟩ := rfl
  rw [hc, put_lines_one_slot lines hne hlen none 0 (Or.inl rfl)]
  exact drain_one_slot _

/-- C7, at the pushes a, b. -/
theorem cb_last_n_capacity_one_witness :
    (∀ l ∈ ["a", "b"], strlen l ≤ MAX_LINE_LENGTH) ∧
    drain (put_lines (cb_create 1 true true) ["a", "b"]) 1 = ["b"] :=
  ⟨by decide, cb_last_n_capacity_one ["a", "b"] (by simp) (by decide)⟩

/-- C8: for every buffer pointer (null or not), every line of more than 4095 characters
and either outcome of the allocation, `cb_put` returns `-1`, which is not its success value
`1`, and the buffer is unchanged in every field. -/
theorem cb_put_line_too_long (cb : Option circular_buffer) (line : String) (malloc_ok : Bool)
    (h : 4095 < strlen line) :
    (cb_put cb (some line) malloc_ok).1 = -1 ∧ (cb_put cb (some line) malloc_ok).1 ≠ 1 ∧
    (cb_put cb (some line) malloc_ok).2 = cb := by
  have h1 : strlen line > MAX_LINE_LENGTH := h
  cases cb with
  | none => simp [cb_put]
  | some b => simp [cb_put, h1]

/-- C8, at a line of 4096 characters pushed onto a buffer holding two lines. -/
theorem cb_put_line_too_long_witness :
    4095 < strlen (line_of_length 4096) ∧
    (cb_put (put_lines (cb_create 2 true true) ["a", "b"]) (some (line_of_length 4096)) true).1
      = -1 ∧
    (cb_put (put_lines (cb_create 2 true true) ["a", "b"]) (some (line_of_length 4096)) true).1
      ≠ 1 ∧
    (cb_put (put_lines (cb_create 2 true true) ["a", "b"]) (some (line_of_length 4096)) true).2
      = put_lines (cb_create 2 true true) ["a", "b"] :=
  ⟨by rw [strlen_line_of_length]; decide,
    cb_put_line_too_long _ _ _ (by rw [strlen_line_of_length]; decide)⟩

/-- C9: on a valid buffer, when the copy can be allocated, `cb_put` returns `1` exactly
for the lines of at most 4095 characters (`MAX_LINE_LENGTH`), a line of exactly 4095
characters included; a line of 4096 characters or more makes it return `-1` whatever the
allocator does. -/
theorem cb_put_accepts_iff_length_le_max (b : circular_buffer) (hb : valid b) (line : String) :
    MAX_LINE_LENGTH = 4095 ∧
    ((cb_put (some b) (some line) true).1 = 1 ↔ strlen line ≤ 4095) ∧
    (4096 ≤ strlen line → ∀ malloc_ok, (cb_put (some b) (some line) malloc_ok).1 = -1) := by
  have _ := hb
  refine ⟨rfl, ?_, ?_⟩
  · by_cases h : strlen line > MAX_LINE_LENGTH
    · have h2 : ¬ strlen line ≤ 4095 := by simp only [MAX_LINE_LENGTH] at h; omega
      simp [cb_put, h, h2]
    · have h2 : strlen line ≤ 4095 := by simp only [MAX_LINE_LENGTH] at h; omega
      simp [cb_put, h, h2]
  · intro h malloc_ok
    have h1 : strlen line > MAX_LINE_LENGTH := by simp only [MAX_LINE_LENGTH]; omega
    simp [cb_put, h1]

/-- C9, at a line of exactly 4095 characters pushed onto a fresh buffer of capacity 1. -/
theorem cb_put_accepts_iff_length_le_max_witness :
    valid ⟨[none], 0, 0, 1, 0⟩ ∧ strlen (line_of_length 4095) = 4095 ∧
    (cb_put (some ⟨[none], 0, 0, 1, 0⟩) (some (line_of_length 4095)) true).1 = 1 :=
  ⟨by decide, strlen_line_of_length 4095,
    (cb_put_accepts_iff_length_le_max ⟨[none], 0, 0, 1, 0⟩ (by decide)
      (line_of_length 4095)).2.1.mpr (by rw [strlen_line_of_length])⟩

/-- C10: the comment above `cb_put` promises a false value when there was a mistake. The
value `cb_put` returns is never zero: it is `-1` for a null buffer, for a null line and for
a line of more than 4095 characters, and `-1` is a true value in C. -/
theorem cb_put_never_returns_zero :
    (∀ cb line malloc_ok, (cb_put cb line malloc_ok).1 ≠ 0) ∧
    (∀ line malloc_ok, (cb_put none line malloc_ok).1 = -1) ∧
    (∀ cb malloc_ok, (cb_put cb none malloc_ok).1 = -1) ∧
    (cb_put (cb_create 1 true true) (some (line_of_length 4096)) true).1 = -1 := by
  refine ⟨?_, ?_, ?_, ?_⟩
  · intro cb line malloc_ok
    cases cb <;> cases line <;> simp only [cb_put] <;> try decide
    split_ifs <;> simp
  · intro line malloc_ok
    simp [cb_put]
  · intro cb malloc_ok
    cases cb <;> simp [cb_put]
  · have h : strlen (line_of_length 4096) > MAX_LINE_LENGTH := by
      rw [strlen_line_of_length]; decide
    have hc : cb_create 1 true true = some ⟨[none], 0, 0, 1, 0⟩ := rfl
    simp [hc, cb_put, h]

/-- C11 as stated fails: when both allocations succeed, `cb_create(0)` returns a buffer,
of size 0 and without a slot. -/
theorem cb_create_zero_returns_buffer :
    cb_create 0 true true = some ⟨[], 0, 0, 0, 0⟩ ∧ cb_create 0 true true ≠ none := by
  decide

/-- C11, amended: `cb_create` rejects every negative capacity, since `calloc` cannot
serve a negative count, but not capacity 0. `cb_create(n)` returns no buffer exactly when
`n < 0` or one of its two allocations fails; for every `n >= 0`, so also for `n = 0`, with
both allocations served it returns a buffer of size `n` with `head`, `tail` and `count`
zero and `n` null slots. -/
theorem cb_create_rejects_negative_capacity_only (n : Int) (k : Nat)
    (malloc_ok calloc_ok : Bool) :
    (cb_create n malloc_ok calloc_ok = none
      ↔ n < 0 ∨ malloc_ok = false ∨ calloc_ok = false) ∧
    cb_create (k : Int) true true
      = some { buffer := List.replicate k none, head := 0, tail := 0, size := k,
               count := 0 } := by
  refine ⟨?_, cb_create_ok k⟩
  by_cases hn : n < 0 <;> cases malloc_ok <;> cases calloc_ok <;> simp [cb_create, hn]

/-- C12: on a valid buffer, `cb_get` with `count == 0` returns a null pointer and leaves the
buffer unchanged; with `count > 0` it leaves `count` one less and `tail` equal to
`(tail + 1) mod size`. -/
theorem cb_get_count_and_tail (b : circular_buffer) (hb : valid b) :
    (b.count = 0 → cb_get b = (none, b)) ∧
    (0 < b.count → (cb_get b).2.count = b.count - 1 ∧
      (cb_get b).2.tail = (b.tail + 1) % b.size) := by
  refine ⟨cb_get_empty b, ?_⟩
  intro hc
  have hne : b.count ≠ 0 := by omega
  obtain ⟨_, _, _, _, h5, h6, _, _⟩ := hb
  rw [cb_get_nonempty b hne]
  exact ⟨rfl, tmod_succ_eq_emod h5 h6⟩

/-- C12, at the buffer of capacity 3 after the pushes a, b, c, d. -/
theorem cb_get_count_and_tail_witness :
    valid ⟨[some "d", some "b", some "c"], 1, 0, 3, 3⟩ ∧
    (cb_get ⟨[some "d", some "b", some "c"], 1, 0, 3, 3⟩).2.count = 3 - 1 ∧
    (cb_get ⟨[some "d", some "b", some "c"], 1, 0, 3, 3⟩).2.tail = (0 + 1) % 3 :=
  ⟨by decide,
    (cb_get_count_and_tail ⟨[some "d", some "b", some "c"], 1, 0, 3, 3⟩ (by decide)).2
      (by decide)⟩

/-- C13: on a valid buffer, `cb_put` of a line of at most 4095 characters whose copy is
allocated returns 1, stores the line in the slot at the old `head`, sets `head` to
`(head + 1) mod size`, adds one to `count` if `count < size` and otherwise leaves it equal
to `size`, and leaves `tail`, `size`, the number of slots and every other slot unchanged. -/
theorem cb_put_frame (b : circular_buffer) (hb : valid b) (line : String)
    (hl : strlen line ≤ 4095) :
    ∃ b1, cb_put (some b) (some line) true = (1, some b1) ∧
      slot_read b1.buffer b.head = some line ∧
      (∀ i : Int, i ≠ b.head → slot_read b1.buffer i = slot_read b.buffer i) ∧
      b1.buffer.length = b.buffer.length ∧
      b1.head = (b.head + 1) % b.size ∧
      (b.count < b.size → b1.count = b.count + 1) ∧
      (¬ b.count < b.size → b1.count = b.count ∧ b1.count = b.size) ∧
      b1.tail = b.tail ∧ b1.size = b.size := by
  obtain ⟨h1, h2, h3, h4, h5, h6, h7, h8⟩ := hb
  refine ⟨_, cb_put_success b line hl, ?_, ?_, ?_, ?_, ?_, ?_, rfl, rfl⟩
  · exact slot_read_write_same _ _ _ h3 (by omega)
  · intro i hi
    exact slot_read_write_other _ _ _ _ hi
  · exact slot_write_length _ _ _
  · exact tmod_succ_eq_emod h3 h4
  · intro hc
    show (if b.count < b.size then b.count + 1 else b.count) = b.count + 1
    rw [if_pos hc]
  · intro hc
    show (if b.count < b.size then b.count + 1 else b.count) = b.count ∧
      (if b.count < b.size then b.count + 1 else b.count) = b.size
    rw [if_neg hc]
    exact ⟨rfl, by omega⟩

/-- C13, at the full buffer of capacity 3 after the pushes a, b, c, d and the line e. -/
theorem cb_put_frame_witness :
    valid ⟨[some "d", some "b", some "c"], 1, 0, 3, 3⟩ ∧ strlen "e" ≤ 4095 ∧
    ∃ b1, cb_put (some ⟨[some "d", some "b", some "c"], 1, 0, 3, 3⟩) (some "e") true
        = (1, some b1) ∧
      slot_read b1.buffer 1 = some "e" ∧ b1.head = 2 ∧ b1.count = 3 ∧ b1.tail = 0 := by
  refine ⟨by decide, by decide, ?_⟩
  obtain ⟨b1, h, hs, -, -, hh, -, hc, ht, -⟩ :=
    cb_put_frame ⟨[some "d", some "b", some "c"], 1, 0, 3, 3⟩ (by decide) "e" (by decide)
  exact ⟨b1, h, hs, hh, (hc (by decide)).2, ht⟩

/-- C14: every buffer reached from `cb_create(c)`, `c >= 1`, by any sequence of `cb_put`
(with any line pointer, failing or not), `cb_get` and `cb_last_n` calls has
`0 <= count <= size`, `0 <= head < size`, `0 <= tail < size` and `size == c`; it has `c`
slots, so `head` and `tail` index a slot, and `size`, the divisor of `%`, is not zero. -/
theorem reachable_buffer_invariant (c : Nat) (hc : 1 ≤ c) (calls : List Call) :
    ∃ b0, cb_create (c : Int) true true = some b0 ∧
      (0 ≤ (run_calls b0 calls).count ∧ (run_calls b0 calls).count ≤ (run_calls b0 calls).size) ∧
      (0 ≤ (run_calls b0 calls).head ∧ (run_calls b0 calls).head < (run_calls b0 calls).size) ∧
      (0 ≤ (run_calls b0 calls).tail ∧ (run_calls b0 calls).tail < (run_calls b0 calls).size) ∧
      (run_calls b0 calls).size = c ∧
      (run_calls b0 calls).buffer.length = c ∧
      (run_calls b0 calls).head.toNat < (run_calls b0 calls).buffer.length ∧
      (run_calls b0 calls).tail.toNat < (run_calls b0 calls).buffer.length ∧
      (run_calls b0 calls).size ≠ 0 := by
  refine ⟨_, cb_create_ok c, ?_⟩
  obtain ⟨⟨h1, h2, h3, h4, h5, h6, h7, h8⟩, hs⟩ :=
    valid_run_calls calls _ (valid_cb_create c hc)
  have hs2 : (run_calls ⟨List.replicate c none, 0, 0, c, 0⟩ calls).size = (c : Int) := hs
  refine ⟨⟨h7, h8⟩, ⟨h3, h4⟩, ⟨h5, h6⟩, hs2, ?_, ?_, ?_, ?_⟩ <;> omega

/-- C14, at capacity 2 and the calls put a, get, put b, put c, drain 5. -/
theorem reachable_buffer_invariant_witness :
    (1 ≤ 2) ∧ ∃ b0, cb_create ((2 : Nat) : Int) true true = some b0 ∧
      (run_calls b0 [Call.put (some "a") true, Call.get, Call.put (some "b") true,
        Call.put (some "c") true, Call.last_n 5]).size = (2 : Nat) := by
  refine ⟨by decide, ?_⟩
  obtain ⟨b0, h0, -, -, -, hs, -⟩ := reachable_buffer_invariant 2 (by decide)
    [Call.put (some "a") true, Call.get, Call.put (some "b") true,
      Call.put (some "c") true, Call.last_n 5]
  exact ⟨b0, h0, hs⟩

/-- C17: for capacity `c >= 2`, more than `c` successful pushes whose number is not a
multiple of `c`, and `n >= 1`, `cb_last_n(cb, n)` prints the `min(n, c)` oldest of the last
`c` pushed lines, in push order. `head` differs from `tail` before the drain and after any
number of iterations of its loop, so every `cb_get` takes the branch of `head`. -/
theorem drain_after_wrap_off_slot_zero (c : Nat) (hc : 2 ≤ c) (lines : List String)
    (hp : c < lines.length) (hmod : lines.length % c ≠ 0) (n : Int) (hn : 1 ≤ n)
    (hlen : ∀ l ∈ lines, strlen l ≤ MAX_LINE_LENGTH) :
    drain (put_lines (cb_create (c : Int) true true) lines) n
      = (last_lines c lines).take n.toNat ∧
    (drain (put_lines (cb_create (c : Int) true true) lines) n).length = min n.toNat c ∧
    ∃ b, put_lines (cb_create (c : Int) true true) lines = some b ∧ b.head ≠ b.tail ∧
      ∀ m : Nat, (cb_last_n_loop m b).2.head ≠ (cb_last_n_loop m b).2.tail := by
  obtain ⟨b, hb, hv, hsize, hblen, hhead, htail, hcount, hslots, -⟩ :=
    put_lines_state c (by omega) lines hlen
  have hne : b.head ≠ b.tail := by
    rw [hhead, htail]
    exact_mod_cast hmod
  have hcnt : b.count = (c : Int) := by
    rw [hcount]
    have : min lines.length c = c := by omega
    rw [this]
  have hlast : (last_lines c lines).length = c := by
    simp only [last_lines, List.length_drop]
    omega
  have key : ∀ k : Nat, (cb_last_n_loop k b).1 = (last_lines c lines).take k ∧
      (cb_last_n_loop k b).2.head ≠ (cb_last_n_loop k b).2.tail := by
    intro k
    apply cb_last_n_loop_head_branch _ k b hv hne
    · simp only [List.length_take]; omega
    · simp only [List.length_take, hlast, hcnt]; omega
    · simp only [List.length_take, hlast, hcnt]; omega
    · intro j x hj
      simp only [last_lines, List.getElem?_take, List.getElem?_drop] at hj
      split_ifs at hj with hjk
      have hjlt : lines.length - c + j < lines.length := by
        by_contra hcon
        rw [List.getElem?_eq_none (by omega)] at hj
        exact absurd hj (by simp)
      have hget := hslots (lines.length - c + j) x hj (by omega)
      have hidx : (b.head + (j : Int)) % b.size
          = (((lines.length - c + j) % c : Nat) : Int) := by
        rw [hhead, hsize]
        have e : (lines.length - c + j) % c = (lines.length % c + j) % c := by
          rw [Nat.mod_add_mod]
          have e2 : lines.length + j = (lines.length - c + j) + c := by omega
          rw [e2, Nat.add_mod_right]
        rw [e]
        push_cast
        rfl
      rw [hidx, slot_read_natCast]
      exact hget
  have hdrain : drain (put_lines (cb_create (c : Int) true true) lines) n
      = (last_lines c lines).take n.toNat := by
    have hcond : ¬ (n ≤ 0 ∨ b.count = 0) := by
      rw [hcnt]; omega
    simp only [drain, hb, cb_last_n, hcond, if_false]
    exact (key n.toNat).1
  refine ⟨hdrain, ?_, b, hb, hne, fun m => (key m).2⟩
  rw [hdrain, List.length_take, hlast]

/-- C17, at capacity 3, the pushes a, b, c, d and `n = 2`. -/
theorem drain_after_wrap_off_slot_zero_witness :
    (2 ≤ 3 ∧ 3 < ["a", "b", "c", "d"].length ∧ ["a", "b", "c", "d"].length % 3 ≠ 0) ∧
    drain (put_lines (cb_create ((3 : Nat) : Int) true true) ["a", "b", "c", "d"]) 2
      = (last_lines 3 ["a", "b", "c", "d"]).take (2 : Int).toNat :=
  ⟨by decide, (drain_after_wrap_off_slot_zero 3 (by decide) ["a", "b", "c", "d"] (by decide)
    (by decide) 2 (by decide) (by decide)).1⟩

/-- C18: for capacity `c >= 2` and `p` successful pushes with `1 <= p < c`, the buffer has
`count > 0` and `head = p`, the slot at `head` was never written, the first `cb_get` returns
a null pointer, and `cb_last_n(cb, n)` prints no line for every `n`. -/
theorem drain_of_partly_filled_buffer_is_empty (c : Nat) (hc : 2 ≤ c) (lines : List String)
    (hp1 : 1 ≤ lines.length) (hp2 : lines.length < c)
    (hlen : ∀ l ∈ lines, strlen l ≤ MAX_LINE_LENGTH) :
    ∃ b, put_lines (cb_create (c : Int) true true) lines = some b ∧ 0 < b.count ∧
      b.head = (lines.length : Int) ∧ slot_read b.buffer b.head = none ∧
      (cb_get b).1 = none ∧ ∀ n : Int, drain (some b) n = [] := by
  obtain ⟨b, hb, hv, hsize, hblen, hhead, htail, hcount, -, hnull⟩ :=
    put_lines_state c (by omega) lines hlen
  have hh : b.head = (lines.length : Int) := by
    rw [hhead, Nat.mod_eq_of_lt hp2]
  have hcnt : b.count = (lines.length : Int) := by
    rw [hcount]
    have : min lines.length c = lines.length := by omega
    rw [this]
  have hc0 : b.count ≠ 0 := by omega
  have hne : b.head ≠ b.tail := by omega
  have hslot : slot_read b.buffer b.head = none := by
    rw [hh, slot_read_natCast]
    exact hnull _ (le_refl _)
  have hget : (cb_get b).1 = none := by
    rw [cb_get_nonempty b hc0]
    simp only [cb_get_index, hne, if_true, ne_eq, not_false_eq_true]
    exact hslot
  refine ⟨b, hb, by omega, hh, hslot, hget, ?_⟩
  intro n
  by_cases hcond : n ≤ 0 ∨ b.count = 0
  · simp [drain, cb_last_n, hcond]
  · simp only [drain, cb_last_n, hcond, if_false]
    obtain ⟨k, hk⟩ : ∃ k, n.toNat = k + 1 := ⟨n.toNat - 1, by omega⟩
    rw [hk, cb_last_n_loop]
    rcases hg : cb_get b with ⟨o, b1⟩
    rw [hg] at hget
    simp only at hget
    subst hget
    rfl

/-- C18, at capacity 10 and the pushes x, y. -/
theorem drain_of_partly_filled_buffer_is_empty_witness :
    (2 ≤ 10 ∧ 1 ≤ ["x", "y"].length ∧ ["x", "y"].length < 10) ∧
    ∃ b, put_lines (cb_create ((10 : Nat) : Int) true true) ["x", "y"] = some b ∧
      (cb_get b).1 = none ∧ drain (some b) 10 = [] := by
  refine ⟨by decide, ?_⟩
  obtain ⟨b, hb, -, -, -, hget, hd⟩ :=
    drain_of_partly_filled_buffer_is_empty 10 (by decide) ["x", "y"] (by decide) (by decide)
      (by decide)
  exact ⟨b, hb, hget, hd 10⟩

/-- C15: after a partial drain `cb_free` is specified to release exactly the slots the
buffer still owns. With capacity 3, the pushes a, b, c, d and `cb_last_n(cb, 1)`, the count
is 3 before the drain, the drain prints and frees the line of slot 1, the buffer still owns
the lines of slots 0 and 2, and `cb_free` frees slots 0 and 1: slot 1 a second time, slot 2
never. -/
theorem cb_free_after_partial_drain :
    (put_lines (cb_create 3 true true) ["a", "b", "c", "d"]).map (fun b => b.count)
      = some 3 ∧
    (put_lines (cb_create 3 true true) ["a", "b", "c", "d"]).map (fun b => cb_last_n_freed 1 b)
      = some [1] ∧
    ((cb_last_n (put_lines (cb_create 3 true true) ["a", "b", "c", "d"]) 1).2).map
      (fun b => owned_slots b [1]) = some [0, 2] ∧
    cb_free (cb_last_n (put_lines (cb_create 3 true true) ["a", "b", "c", "d"]) 1).2
      = [0, 1] := by
  decide

/-- C16: a buffer with `count == size` is specified to hold a line in every slot. With
capacity 3 and the calls put a, put b, get, put c, put d the buffer has `count == size == 3`
and its slot 2 is null. -/
theorem full_count_with_null_slot :
    (cb_create 3 true true).map (fun b => run_calls b [Call.put (some "a") true,
      Call.put (some "b") true, Call.get, Call.put (some "c") true, Call.put (some "d") true])
      = some ⟨[some "c", some "d", none], 2, 1, 3, 3⟩ := by
  decide

/-- C19: the parser is specified to accept only line counts that are not negative. With
`int` arithmetic modulo `2 ^ 32`, `string_to_int` returns `-2147483648` for the string
2147483648, and `parse_args` accepts it; `parse_args` rejects the argument of `-n` exactly
when `string_to_int` returns `-1`, and the string 0 is accepted and yields 0. -/
theorem parse_args_accepts_negative_count :
    string_to_int "2147483648" = -2147483648 ∧
    parse_args ["tail", "-n", "2147483648"] true
      = (1, ⟨-2147483648, some Stream.stdin⟩) ∧
    (∀ s : String, (parse_args ["tail", "-n", s] true).1 = -1 ↔ string_to_int s = -1) ∧
    parse_args ["tail", "-n", "0"] true = (1, ⟨0, some Stream.stdin⟩) := by
  have h : string_to_int "2147483648" = -2147483648 := by
    simp [string_to_int, string_to_int_loop, wrap_int]
  refine ⟨h, ?_, ?_, by decide⟩
  · simp [parse_args, h]
  · intro s
    by_cases hs : string_to_int s = -1 <;> simp [parse_args, hs]

/-- C20: for a string of the characters `0` to `9` only (the empty string included) whose
decimal value is below `2 ^ 31`, `string_to_int` returns that value; for a string with a
character outside `0` to `9` it returns `-1`. -/
theorem string_to_int_decimal_value (str : String) :
    (all_digits str → decimal_value str < 2 ^ 31 →
      string_to_int str = (decimal_value str : Int)) ∧
    (¬ all_digits str → string_to_int str = -1) := by
  constructor
  · intro hd hv
    have h := string_to_int_loop_digits str.data 0 hd (by simpa [decimal_value] using hv)
    simpa [string_to_int, decimal_value] using h
  · intro hd
    apply string_to_int_loop_not_digit
    simpa [all_digits] using hd

/-- C20, at the largest `int`, at the empty string and at a string with a letter. -/
theorem string_to_int_decimal_value_witness :
    (all_digits "2147483647" ∧ decimal_value "2147483647" < 2 ^ 31 ∧
      string_to_int "2147483647" = (decimal_value "2147483647" : Int)) ∧
    (all_digits "" ∧ decimal_value "" = 0 ∧ string_to_int "" = (decimal_value "" : Int)) ∧
    (¬ all_digits "12a" ∧ string_to_int "12a" = -1) := by
  have h1 : all_digits "2147483647" := by decide
  have h2 : decimal_value "2147483647" < 2 ^ 31 := by
    simp [decimal_value, Nat.ofDigits]
  have h3 : ¬ all_digits "12a" := by decide
  exact ⟨⟨h1, h2, (string_to_int_decimal_value "2147483647").1 h1 h2⟩,
    ⟨by decide, by decide, (string_to_int_decimal_value "").1 (by decide) (by decide)⟩,
    ⟨h3, (string_to_int_decimal_value "12a").2 h3⟩⟩

end Tail
